import Mathlib

/-!
Verification of the squrp container codec (src/index.ts): the binary
serialization format, its encoder `serializeFileMap`, its decoder
`deserializeFileMap`, and the error handling around gzip decompression.

Modelling conventions: bytes are `Nat` values below 256; JavaScript strings
are `List Char` (sequences of Unicode scalar values); JavaScript numbers at
the magnitudes reached here are exact integers, so `Nat` and `Int` model
them, with the 32-bit signed semantics of the `<<`, `>>` and `|` operators
made explicit where the source relies on them.  A JavaScript `Map` is an
insertion-ordered association list whose `set` replaces the value of an
existing key in place.
-/

set_option maxRecDepth 16000

deriving instance DecidableEq for Except

namespace Squrp

/-- The error codes of `SqurpErrorCode` in src/index.ts.  The source attaches
a human-readable message to each thrown `SqurpError`; the message carries no
information beyond the code, so errors are modelled by their code. -/
inductive SqurpErrorCode where
  | INVALID_HEADER
  | CORRUPTED_DATA
  | UNSUPPORTED_VERSION
  | PATH_TOO_LONG
  | CONTENT_TOO_LARGE
  | UNEXPECTED_END
  | ENTRY_EXCEEDS_BOUNDS
  deriving DecidableEq, Repr

/-- A `string | Uint8Array` value: text content or binary content. -/
inductive JsContent where
  | str (s : List Char)
  | bytes (b : List Nat)
  deriving DecidableEq, Repr

/-- Number of UTF-16 code units of one scalar value: JavaScript
`String.prototype.length` counts supplementary-plane characters twice. -/
def utf16Units (c : Char) : Nat :=
  if c.toNat < 65536 then 1 else 2

/-- JavaScript `path.length`: the UTF-16 code-unit count of a string. -/
def utf16Length (s : List Char) : Nat :=
  (s.map utf16Units).sum

/-- The UTF-8 encoding of one scalar value (`TextEncoder` for one char). -/
def utf8EncodeChar (c : Char) : List Nat :=
  let n := c.toNat
  if n < 128 then [n]
  else if n < 2048 then [192 + n / 64, 128 + n % 64]
  else if n < 65536 then [224 + n / 4096, 128 + n / 64 % 64, 128 + n % 64]
  else [240 + n / 262144, 128 + n / 4096 % 64, 128 + n / 64 % 64, 128 + n % 64]

/-- `new TextEncoder().encode(s)`: the UTF-8 encoding of a string. -/
def utf8Encode (s : List Char) : List Nat :=
  (s.map utf8EncodeChar).flatten

/-- The replacement character U+FFFD emitted by `TextDecoder` on malformed
input. -/
def replChar : Char := Char.ofNat 65533

/-- `new TextDecoder().decode(bytes)`: the WHATWG UTF-8 decoder in its
default non-fatal mode.  A malformed sequence yields U+FFFD; after a bad
continuation byte, decoding resumes at that byte. -/
def utf8Decode : List Nat → List Char
  | [] => []
  | b0 :: rest =>
    if b0 < 128 then Char.ofNat b0 :: utf8Decode rest
    else if b0 < 194 then replChar :: utf8Decode rest
    else if b0 < 224 then
      match rest with
      | [] => [replChar]
      | b1 :: rest1 =>
        if 128 ≤ b1 ∧ b1 ≤ 191 then
          Char.ofNat ((b0 - 192) * 64 + (b1 - 128)) :: utf8Decode rest1
        else replChar :: utf8Decode (b1 :: rest1)
    else if b0 < 240 then
      match rest with
      | [] => [replChar]
      | b1 :: rest1 =>
        if (if b0 = 224 then 160 ≤ b1 ∧ b1 ≤ 191
            else if b0 = 237 then 128 ≤ b1 ∧ b1 ≤ 159
            else 128 ≤ b1 ∧ b1 ≤ 191) then
          match rest1 with
          | [] => [replChar]
          | b2 :: rest2 =>
            if 128 ≤ b2 ∧ b2 ≤ 191 then
              Char.ofNat ((b0 - 224) * 4096 + (b1 - 128) * 64 + (b2 - 128)) ::
                utf8Decode rest2
            else replChar :: utf8Decode (b2 :: rest2)
        else replChar :: utf8Decode (b1 :: rest1)
    else if b0 < 245 then
      match rest with
      | [] => [replChar]
      | b1 :: rest1 =>
        if (if b0 = 240 then 144 ≤ b1 ∧ b1 ≤ 191
            else if b0 = 244 then 128 ≤ b1 ∧ b1 ≤ 143
            else 128 ≤ b1 ∧ b1 ≤ 191) then
          match rest1 with
          | [] => [replChar]
          | b2 :: rest2 =>
            if 128 ≤ b2 ∧ b2 ≤ 191 then
              match rest2 with
              | [] => [replChar]
              | b3 :: rest3 =>
                if 128 ≤ b3 ∧ b3 ≤ 191 then
                  Char.ofNat ((b0 - 240) * 262144 + (b1 - 128) * 4096 +
                      (b2 - 128) * 64 + (b3 - 128)) :: utf8Decode rest3
                else replChar :: utf8Decode (b3 :: rest3)
            else replChar :: utf8Decode (b2 :: rest2)
        else replChar :: utf8Decode (b1 :: rest1)
    else replChar :: utf8Decode rest

/-- The magic header `HEADER` of src/index.ts: the bytes of "squirp\0". -/
def HEADER : List Nat := [0x73, 0x71, 0x75, 0x69, 0x72, 0x70, 0x00]

/-- `encodeLE(value, bytes)` of src/index.ts.  The source extracts each byte
with `value & 0xff; value >>= 8`.  Both operators coerce their operand to a
32-bit signed integer, so the loop produces exactly the little-endian bytes
of `value mod 2^32` (the arithmetic right shift sign-extends, but the
sign-extension bits never reach the extracted low bytes within four
iterations); the guard rejecting negative or non-integral values never
fires on a `Nat` argument. -/
def encodeLE (value : Nat) (bytes : Nat) : List Nat :=
  go (value % 4294967296) bytes
where
  go : Nat → Nat → List Nat
    | _, 0 => []
    | v, n + 1 => v % 256 :: go (v / 256) n

/-- Reduction of an integer to the 32-bit signed value with the same low 32
bits, as performed by the JavaScript `<<` and `|` operators (ToInt32). -/
def toInt32 (n : Int) : Int :=
  let m := n % 4294967296
  if m < 2147483648 then m else m - 4294967296

/-- `decodeLE(bytes)` of src/index.ts.  The source runs
`result = (result << 8) | byte` from the last byte down to the first; with
`result` in 32-bit signed range and `byte < 256`, the shift produces
`toInt32 (result * 256)` (a multiple of 256 in signed range) and the `|`
then adds the byte, so one step is `toInt32 (result * 256) + byte`. -/
def decodeLE (bytes : List Nat) : Int :=
  bytes.foldr (fun b r => toInt32 (r * 256) + (b : Int)) 0

/-- `data[i]` on a `Uint8Array`: `none` models `undefined`. -/
def jsGet (data : List Nat) (i : Int) : Option Nat :=
  if i < 0 then none else data[i.toNat]?

/-- Clamp one argument of `Uint8Array.prototype.slice` the way JavaScript
does: a negative index counts from the end, and indices are clamped to
`[0, length]`. -/
def jsIdx (len : Nat) (i : Int) : Nat :=
  if i < 0 then ((len : Int) + i).toNat else min i.toNat len

/-- `data.slice(start, stop)` on a `Uint8Array`. -/
def jsSlice (data : List Nat) (start stop : Int) : List Nat :=
  (data.take (jsIdx data.length stop)).drop (jsIdx data.length start)

/-- The header loop of `deserializeFileMap`: compare `data[i]` against
`HEADER[i]` for `i = 0 .. 6`; an out-of-range read yields `undefined`,
which never equals a header byte. -/
def headerMatches (data : List Nat) : Bool :=
  (List.range HEADER.length).all fun i => jsGet data i == HEADER[i]?

/-- `Map.prototype.set` on an insertion-ordered association list: replace
the value of an existing key in place, otherwise append the new binding. -/
def mapSet : List (List Char × JsContent) → List Char → JsContent →
    List (List Char × JsContent)
  | [], k, v => [(k, v)]
  | (k0, v0) :: rest, k, v =>
    if k0 = k then (k, v) :: rest else (k0, v0) :: mapSet rest k v

/-- `Map.prototype.get` on the association-list model. -/
def mapGet : List (List Char × JsContent) → List Char → Option JsContent
  | [], _ => none
  | (k0, v0) :: rest, k => if k0 = k then some v0 else mapGet rest k

/-- The `content.length` read by the size check of `serializeFileMap`: for a
string this is the UTF-16 code-unit count, for a `Uint8Array` the byte
count. -/
def contentRawLength : JsContent → Nat
  | .str s => utf16Length s
  | .bytes b => b.length

/-- The `contentBytes` computed by `serializeFileMap`: text is UTF-8
encoded, binary content passes through unchanged. -/
def contentBytes : JsContent → List Nat
  | .str s => utf8Encode s
  | .bytes b => b

/-- `typeof content !== "string"`. -/
def JsContent.isBin : JsContent → Bool
  | .str _ => false
  | .bytes _ => true

/-- One element of the `entries` array built by the first loop of
`serializeFileMap`. -/
structure BuiltEntry where
  path : List Char
  isBinary : Bool
  content : List Nat
  deriving DecidableEq, Repr

/-- The first loop of `serializeFileMap` (src/index.ts lines 148-171): check
`path.length > 65535`, then check the running total
`entries.reduce((sum, e) => sum + e.content.length, 0) + content.length`
against `0xffffffff` (previous entries contribute their encoded byte
lengths, the current entry its raw `content.length`), then push the encoded
entry. -/
def buildEntries : List (List Char × JsContent) → List BuiltEntry →
    Except SqurpErrorCode (List BuiltEntry)
  | [], acc => .ok acc
  | (path, content) :: rest, acc =>
    if utf16Length path > 65535 then .error .PATH_TOO_LONG
    else if (acc.map (fun e => e.content.length)).sum + contentRawLength content
        > 0xffffffff then .error .CONTENT_TOO_LARGE
    else buildEntries rest
      (acc ++ [⟨path, content.isBin, contentBytes content⟩])

/-- The second loop of `serializeFileMap`: one serialized entry record,
`pathLength(2) ++ contentLength(4) ++ flag(1) ++ pathBytes ++ content`. -/
def encodeRecord (e : BuiltEntry) : List Nat :=
  encodeLE (utf8Encode e.path).length 2 ++ encodeLE e.content.length 4 ++
    [if e.isBinary then 1 else 0] ++ utf8Encode e.path ++ e.content

/-- `serializeFileMap(map)` of src/index.ts lines 139-202. -/
def serializeFileMap (map : List (List Char × JsContent)) :
    Except SqurpErrorCode (List Nat) :=
  (buildEntries map []).map fun entries =>
    let entryData := (entries.map encodeRecord).flatten
    HEADER ++ encodeLE (HEADER.length + 4 + 4 + entryData.length) 4 ++
      encodeLE entries.length 4 ++ entryData

/-- The entry loop of `deserializeFileMap` (src/index.ts lines 247-279),
run `entryCount` times with the running byte offset threaded through.  The
offset is an `Int`: a `contentLength` field with its high bit set decodes
negative and moves the offset backwards. -/
def parseEntries (data : List Nat) :
    Nat → Int → List (List Char × JsContent) →
    Except SqurpErrorCode (List (List Char × JsContent))
  | 0, _, acc => .ok acc
  | fuel + 1, offset, acc =>
    if offset + 7 > (data.length : Int) then .error .UNEXPECTED_END
    else
      let pathLength := decodeLE (jsSlice data offset (offset + 2))
      let contentLength := decodeLE (jsSlice data (offset + 2) (offset + 6))
      let isBinary := jsGet data (offset + 6) == some 1
      if offset + 7 + pathLength + contentLength > (data.length : Int) then
        .error .ENTRY_EXCEEDS_BOUNDS
      else
        let pathBytes := jsSlice data (offset + 7) (offset + 7 + pathLength)
        let content := jsSlice data (offset + 7 + pathLength)
          (offset + 7 + pathLength + contentLength)
        parseEntries data fuel (offset + 7 + pathLength + contentLength)
          (mapSet acc (utf8Decode pathBytes)
            (if isBinary then .bytes content else .str (utf8Decode content)))

/-- `deserializeFileMap(data)` of src/index.ts lines 204-282. -/
def deserializeFileMap (data : List Nat) :
    Except SqurpErrorCode (List (List Char × JsContent)) :=
  if ¬ headerMatches data then .error .INVALID_HEADER
  else if 7 + 4 > data.length then .error .UNEXPECTED_END
  else
    let totalLength := decodeLE (jsSlice data 7 11)
    if totalLength ≠ (data.length : Int) then .error .CORRUPTED_DATA
    else if 11 + 4 > data.length then .error .UNEXPECTED_END
    else
      let entryCount := decodeLE (jsSlice data 11 15)
      parseEntries data entryCount.toNat 15 []

/-- A failure thrown inside the gzip decompression step: either already a
`SqurpError` of this system, or some other platform-level failure. -/
inductive JsError where
  | squrp (code : SqurpErrorCode)
  | other (message : List Char)
  deriving DecidableEq, Repr

/-- `decompressWithGzip` of src/index.ts lines 110-137.  The gzip
`DecompressionStream` is a platform capability, not code of this
repository, so its outcome is taken as an argument; the try/catch of lines
128-136 rethrows a `SqurpError` unchanged and converts any other failure
into `CORRUPTED_DATA`. -/
def decompressWithGzip (gzipOutcome : Except JsError (List Nat)) :
    Except JsError (List Nat) :=
  match gzipOutcome with
  | .ok bytes => .ok bytes
  | .error (.squrp c) => .error (.squrp c)
  | .error (.other _) => .error (.squrp .CORRUPTED_DATA)

/-- `unzip(data)` of src/index.ts lines 290-295: decompress, then
deserialize. -/
def unzip (gzipOutcome : Except JsError (List Nat)) :
    Except JsError (List (List Char × JsContent)) :=
  match decompressWithGzip gzipOutcome with
  | .error e => .error e
  | .ok bytes => (deserializeFileMap bytes).mapError .squrp

/-! ## Record-level structure of the container format -/

/-- One syntactic entry record of the container format: the byte-level
content of `pathLength(2) | contentLength(4) | flag(1) | pathBytes |
contentBytes`. -/
structure RawRecord where
  pathBytes : List Nat
  flag : Nat
  content : List Nat
  deriving DecidableEq, Repr

/-- The byte layout of one record. -/
def encodeRawRecord (r : RawRecord) : List Nat :=
  encodeLE r.pathBytes.length 2 ++ encodeLE r.content.length 4 ++
    [r.flag] ++ r.pathBytes ++ r.content

/-- Bounds under which the two length fields of a record decode to the
actual lengths (2-byte field, and 4-byte field read as signed 32-bit). -/
def rawOk (r : RawRecord) : Prop :=
  r.pathBytes.length < 65536 ∧ r.content.length < 2147483648

instance (r : RawRecord) : Decidable (rawOk r) :=
  inferInstanceAs (Decidable
    (r.pathBytes.length < 65536 ∧ r.content.length < 2147483648))

/-- The (path, value) pair the decoder reconstructs from one record. -/
def decodeRawRecord (r : RawRecord) : List Char × JsContent :=
  (utf8Decode r.pathBytes,
    if r.flag == 1 then .bytes r.content else .str (utf8Decode r.content))

/-- The concatenation of the serialized entry records. -/
def mkEntryData (rs : List RawRecord) : List Nat :=
  (rs.map encodeRawRecord).flatten

/-- A container buffer holding the given records, with consistent header,
`totalLength` and `entryCount` fields. -/
def mkBuffer (rs : List RawRecord) : List Nat :=
  HEADER ++ encodeLE (15 + (mkEntryData rs).length) 4 ++
    encodeLE rs.length 4 ++ mkEntryData rs

/-- The record a built entry serializes to. -/
def toRaw (e : BuiltEntry) : RawRecord :=
  ⟨utf8Encode e.path, if e.isBinary then 1 else 0, e.content⟩

/-- The entry built for one input pair by the first loop of
`serializeFileMap`. -/
def mkBuilt (e : List Char × JsContent) : BuiltEntry :=
  ⟨e.1, e.2.isBin, contentBytes e.2⟩

/-! ## Byte-level lemmas -/

theorem encodeLE_go_length (v n : Nat) : (encodeLE.go v n).length = n := by
  induction n generalizing v with
  | zero => rfl
  | succ n ih => simp [encodeLE.go, ih]

theorem encodeLE_length (v n : Nat) : (encodeLE v n).length = n :=
  encodeLE_go_length _ _

theorem encodeLE_two (v : Nat) :
    encodeLE v 2 = [v % 4294967296 % 256, v % 4294967296 / 256 % 256] := rfl

theorem encodeLE_four (v : Nat) :
    encodeLE v 4 = [v % 4294967296 % 256, v % 4294967296 / 256 % 256,
      v % 4294967296 / 256 / 256 % 256,
      v % 4294967296 / 256 / 256 / 256 % 256] := rfl

theorem toInt32_of_small (n : Int) (h0 : 0 ≤ n) (h : n < 2147483648) :
    toInt32 n = n := by
  simp only [toInt32]
  omega

theorem decodeLE_nil : decodeLE [] = 0 := rfl

theorem decodeLE_cons (b : Nat) (rest : List Nat) :
    decodeLE (b :: rest) = toInt32 (decodeLE rest * 256) + b := rfl

theorem decodeLE_two_bytes (b0 b1 : Nat) (h1 : b1 < 256) :
    decodeLE [b0, b1] = (b0 : Int) + 256 * b1 := by
  rw [decodeLE_cons, decodeLE_cons, decodeLE_nil]
  rw [show toInt32 (0 * 256) = 0 from rfl, zero_add]
  rw [toInt32_of_small ((b1 : Int) * 256) (by positivity) (by omega)]
  ring

theorem toInt32_mul_add (r : Int) (b : Nat) (hb : b < 256) :
    toInt32 (r * 256) + b = toInt32 (r * 256 + b) := by
  simp only [toInt32]
  split_ifs <;> omega

theorem toInt32_congr (a b : Int) (h : a % 4294967296 = b % 4294967296) :
    toInt32 a = toInt32 b := by
  simp only [toInt32]
  split_ifs <;> omega

theorem decodeLE_four_bytes (b0 b1 b2 b3 : Nat)
    (h0 : b0 < 256) (h1 : b1 < 256) (h2 : b2 < 256) (h3 : b3 < 256) :
    decodeLE [b0, b1, b2, b3] =
      toInt32 (b0 + 256 * b1 + 65536 * b2 + 16777216 * b3) := by
  rw [decodeLE_cons, decodeLE_cons, decodeLE_cons, decodeLE_cons, decodeLE_nil]
  rw [show toInt32 (0 * 256) = 0 from rfl, zero_add]
  rw [toInt32_of_small ((b3 : Int) * 256) (by positivity) (by omega)]
  rw [toInt32_of_small (((b3 : Int) * 256 + b2) * 256) (by positivity)
    (by omega)]
  rw [toInt32_mul_add _ _ (by omega)]
  congr 1
  ring

theorem decodeLE_encodeLE_two (v : Nat) (h : v < 65536) :
    decodeLE (encodeLE v 2) = v := by
  rw [encodeLE_two, decodeLE_two_bytes _ _ (by omega)]
  omega

theorem decodeLE_encodeLE_four (v : Nat) :
    decodeLE (encodeLE v 4) = toInt32 v := by
  rw [encodeLE_four,
    decodeLE_four_bytes _ _ _ _ (by omega) (by omega) (by omega) (by omega)]
  apply toInt32_congr
  push_cast
  omega

theorem decodeLE_encodeLE_four_of_lt (v : Nat) (h : v < 2147483648) :
    decodeLE (encodeLE v 4) = v := by
  rw [decodeLE_encodeLE_four, toInt32_of_small] <;> omega

theorem toInt32_lt (n : Int) : toInt32 n < 2147483648 := by
  simp only [toInt32]
  omega

/-! ## Slice and index lemmas -/

theorem jsGet_coe (data : List Nat) (i : Nat) : jsGet data i = data[i]? := by
  simp [jsGet]

theorem jsGet_exact (pre suf : List Nat) (x : Nat) :
    jsGet (pre ++ x :: suf) (pre.length : Int) = some x := by
  rw [jsGet_coe, List.getElem?_append_right (Nat.le_refl _)]
  simp

theorem jsSlice_coe (data : List Nat) (a b : Nat) :
    jsSlice data a b = (data.take b).drop a := by
  simp only [jsSlice, jsIdx]
  rw [if_neg (by omega), if_neg (by omega)]
  simp only [Int.toNat_natCast]
  rw [show min b data.length = b ⊓ data.length from rfl, ← List.take_take,
    List.take_length]
  rcases Nat.le_total a data.length with h | h
  · rw [min_eq_left h]
  · rw [min_eq_right h,
      List.drop_eq_nil_of_le (by rw [List.length_take]; omega),
      List.drop_eq_nil_of_le (by rw [List.length_take]; omega)]

theorem jsSlice_exact (pre mid suf : List Nat) :
    jsSlice (pre ++ mid ++ suf) (pre.length : Int)
      ((pre.length : Int) + (mid.length : Int)) = mid := by
  rw [show ((pre.length : Int) + (mid.length : Int)) =
      ((pre.length + mid.length : Nat) : Int) by push_cast; ring]
  rw [jsSlice_coe]
  rw [show pre.length + mid.length = (pre ++ mid).length by simp]
  rw [List.take_append_eq_append_take, List.take_length, Nat.sub_self,
    List.take_zero, List.append_nil, List.drop_left]

/-! ## UTF-8 lemmas -/

theorem char_toNat_valid (c : Char) :
    c.toNat < 55296 ∨ (57343 < c.toNat ∧ c.toNat < 1114112) := c.valid

theorem utf8Encode_nil : utf8Encode [] = [] := rfl

theorem utf8Encode_cons (c : Char) (s : List Char) :
    utf8Encode (c :: s) = utf8EncodeChar c ++ utf8Encode s := by
  simp [utf8Encode]

theorem utf16Units_le_encodeLength (c : Char) :
    utf16Units c ≤ (utf8EncodeChar c).length := by
  simp only [utf16Units, utf8EncodeChar]
  split_ifs <;> simp <;> omega

theorem utf16Length_le_encodeLength (s : List Char) :
    utf16Length s ≤ (utf8Encode s).length := by
  induction s with
  | nil => simp [utf16Length, utf8Encode]
  | cons c s ih =>
    rw [utf8Encode_cons]
    simp only [utf16Length, List.map_cons, List.sum_cons, List.length_append]
    exact Nat.add_le_add (utf16Units_le_encodeLength c) ih

theorem utf8Decode_encodeChar (c : Char) (rest : List Nat) :
    utf8Decode (utf8EncodeChar c ++ rest) = c :: utf8Decode rest := by
  have hv := char_toNat_valid c
  have hofn : Char.ofNat c.toNat = c := Char.ofNat_toNat c
  simp only [utf8EncodeChar]
  by_cases h1 : c.toNat < 128
  · rw [if_pos h1]
    rw [List.singleton_append, utf8Decode.eq_def]
    simp only
    rw [if_pos h1, hofn]
  rw [if_neg h1]
  by_cases h2 : c.toNat < 2048
  · rw [if_pos h2]
    simp only [List.cons_append, List.nil_append]
    rw [utf8Decode.eq_def]
    simp only
    rw [if_neg (by omega), if_neg (by omega), if_pos (by omega),
      if_pos (by constructor <;> omega)]
    have hx : (192 + c.toNat / 64 - 192) * 64 + (128 + c.toNat % 64 - 128) =
        c.toNat := by omega
    rw [hx, hofn]
  rw [if_neg h2]
  by_cases h3 : c.toNat < 65536
  · rcases hv with hv | hv <;>
      [skip;
       replace hv := hv.1] <;>
    · rw [if_pos h3]
      simp only [List.cons_append, List.nil_append]
      rw [utf8Decode.eq_def]
      simp only
      rw [if_neg (by omega), if_neg (by omega), if_neg (by omega),
        if_pos (by omega)]
      split_ifs <;>
        first
        | (exfalso; omega)
        | (refine congrArg₂ List.cons ?_ rfl
           conv_rhs => rw [← hofn]
           exact congrArg Char.ofNat (by omega))
  · rcases hv with hv | hv
    · exact absurd (by omega : c.toNat < 65536) h3
    · rw [if_neg h3]
      simp only [List.cons_append, List.nil_append]
      rw [utf8Decode.eq_def]
      simp only
      rw [if_neg (by omega), if_neg (by omega), if_neg (by omega),
        if_neg (by omega), if_pos (by omega)]
      split_ifs <;>
        first
        | (exfalso; omega)
        | (refine congrArg₂ List.cons ?_ rfl
           conv_rhs => rw [← hofn]
           exact congrArg Char.ofNat (by omega))

theorem utf8Decode_encode_append (s : List Char) (rest : List Nat) :
    utf8Decode (utf8Encode s ++ rest) = s ++ utf8Decode rest := by
  induction s with
  | nil => rw [utf8Encode_nil, List.nil_append, List.nil_append]
  | cons c s ih =>
    rw [utf8Encode_cons, List.append_assoc, utf8Decode_encodeChar, ih,
      List.cons_append]

theorem utf8Decode_encode (s : List Char) : utf8Decode (utf8Encode s) = s := by
  have h := utf8Decode_encode_append s []
  simpa [utf8Decode] using h

theorem mkEntryData_nil : mkEntryData [] = [] := rfl

theorem mkEntryData_cons (r : RawRecord) (rs : List RawRecord) :
    mkEntryData (r :: rs) = encodeRawRecord r ++ mkEntryData rs := by
  simp [mkEntryData]

theorem encodeRawRecord_length (r : RawRecord) :
    (encodeRawRecord r).length =
      7 + r.pathBytes.length + r.content.length := by
  simp [encodeRawRecord, encodeLE_length]
  omega

theorem beq_some_nat (a b : Nat) : (some a == some b) = (a == b) := rfl

theorem except_bind_ok {ε α β : Type} (a : α) (f : α → Except ε β) :
    (Except.ok a : Except ε α).bind f = f a := rfl

theorem jsSlice_at (data pre mid suf : List Nat) (a b : Int)
    (hd : data = pre ++ mid ++ suf) (ha : a = (pre.length : Int))
    (hb : b = (pre.length : Int) + (mid.length : Int)) :
    jsSlice data a b = mid := by
  subst hd ha hb
  exact jsSlice_exact pre mid suf

theorem jsGet_at (data pre suf : List Nat) (x : Nat) (a : Int)
    (hd : data = pre ++ x :: suf) (ha : a = (pre.length : Int)) :
    jsGet data a = some x := by
  subst hd ha
  exact jsGet_exact pre suf x

/-- One iteration of the entry loop consumes exactly one well-formed record
that starts at the current offset. -/
theorem parseEntries_step (pre : List Nat) (r : RawRecord) (tail : List Nat)
    (fuel : Nat) (acc : List (List Char × JsContent))
    (hp : r.pathBytes.length < 65536) (hc : r.content.length < 2147483648) :
    parseEntries (pre ++ encodeRawRecord r ++ tail) (fuel + 1)
      (pre.length : Int) acc =
    parseEntries (pre ++ encodeRawRecord r ++ tail) fuel
      ((pre.length : Int) + 7 + (r.pathBytes.length : Int) +
        (r.content.length : Int))
      (mapSet acc (decodeRawRecord r).1 (decodeRawRecord r).2) := by
  have hlen : (pre ++ encodeRawRecord r ++ tail).length =
      pre.length + (7 + r.pathBytes.length + r.content.length) +
        tail.length := by
    simp [encodeRawRecord_length]
    omega
  have hA : jsSlice (pre ++ encodeRawRecord r ++ tail)
      (pre.length : Int) ((pre.length : Int) + 2) =
      encodeLE r.pathBytes.length 2 :=
    jsSlice_at _ pre _ (encodeLE r.content.length 4 ++ [r.flag] ++
        r.pathBytes ++ r.content ++ tail) _ _
      (by simp [encodeRawRecord, List.append_assoc]) rfl
      (by push_cast [encodeLE_length]; ring)
  have hB : jsSlice (pre ++ encodeRawRecord r ++ tail)
      ((pre.length : Int) + 2) ((pre.length : Int) + 6) =
      encodeLE r.content.length 4 :=
    jsSlice_at _ (pre ++ encodeLE r.pathBytes.length 2) _
      ([r.flag] ++ r.pathBytes ++ r.content ++ tail) _ _
      (by simp [encodeRawRecord, List.append_assoc])
      (by push_cast [List.length_append, encodeLE_length]; ring)
      (by push_cast [List.length_append, encodeLE_length]; ring)
  have hFlag : jsGet (pre ++ encodeRawRecord r ++ tail)
      ((pre.length : Int) + 6) = some r.flag :=
    jsGet_at _ (pre ++ encodeLE r.pathBytes.length 2 ++
        encodeLE r.content.length 4) (r.pathBytes ++ r.content ++ tail)
      r.flag _
      (by simp [encodeRawRecord, List.append_assoc])
      (by push_cast [List.length_append, encodeLE_length]; ring)
  have hPB : jsSlice (pre ++ encodeRawRecord r ++ tail)
      ((pre.length : Int) + 7)
      ((pre.length : Int) + 7 + (r.pathBytes.length : Int)) =
      r.pathBytes :=
    jsSlice_at _ (pre ++ encodeLE r.pathBytes.length 2 ++
        encodeLE r.content.length 4 ++ [r.flag]) _ (r.content ++ tail) _ _
      (by simp [encodeRawRecord, List.append_assoc])
      (by push_cast [List.length_append, encodeLE_length,
        List.length_singleton]; ring)
      (by push_cast [List.length_append, encodeLE_length,
        List.length_singleton]; ring)
  have hCB : jsSlice (pre ++ encodeRawRecord r ++ tail)
      ((pre.length : Int) + 7 + (r.pathBytes.length : Int))
      ((pre.length : Int) + 7 + (r.pathBytes.length : Int) +
        (r.content.length : Int)) = r.content :=
    jsSlice_at _ (pre ++ encodeLE r.pathBytes.length 2 ++
        encodeLE r.content.length 4 ++ [r.flag] ++ r.pathBytes) _ tail _ _
      (by simp [encodeRawRecord, List.append_assoc])
      (by push_cast [List.length_append, encodeLE_length,
        List.length_singleton]; ring)
      (by push_cast [List.length_append, encodeLE_length,
        List.length_singleton]; ring)
  rw [parseEntries.eq_def]
  simp only
  rw [if_neg (by push_cast [hlen]; omega)]
  rw [hA, decodeLE_encodeLE_two _ hp, hB, decodeLE_encodeLE_four_of_lt _ hc,
    hFlag, beq_some_nat]
  rw [if_neg (by push_cast [hlen]; omega)]
  rw [hPB, hCB]
  rfl

/-- Running the entry loop over the concatenation of well-formed records
parses each record in order, threading the accumulator through `mapSet`. -/
theorem parseEntries_spec (rs : List RawRecord) (pre : List Nat)
    (acc : List (List Char × JsContent)) (hwf : ∀ r ∈ rs, rawOk r) :
    parseEntries (pre ++ mkEntryData rs) rs.length (pre.length : Int) acc =
      .ok (rs.foldl
        (fun m r => mapSet m (decodeRawRecord r).1 (decodeRawRecord r).2)
        acc) := by
  induction rs generalizing pre acc with
  | nil =>
    rw [mkEntryData_nil, List.append_nil]
    rfl
  | cons r rest ih =>
    obtain ⟨hp, hc⟩ := hwf r (by simp)
    rw [mkEntryData_cons, ← List.append_assoc, List.length_cons,
      parseEntries_step pre r _ _ _ hp hc, List.foldl_cons]
    rw [show ((pre.length : Int) + 7 + (r.pathBytes.length : Int) +
        (r.content.length : Int)) =
        (((pre ++ encodeRawRecord r).length : Nat) : Int) by
      push_cast [List.length_append, encodeRawRecord_length]; ring]
    exact ih (pre ++ encodeRawRecord r) _ (fun q hq => hwf q (by simp [hq]))

theorem headerMatches_header_append (x : List Nat) :
    headerMatches (HEADER ++ x) = true := by
  simp only [headerMatches, List.all_eq_true]
  intro i hi
  have h7 : HEADER.length = 7 := rfl
  rw [h7] at hi
  have hi7 := List.mem_range.mp hi
  interval_cases i <;> simp [jsGet, HEADER]

theorem mkBuffer_length (rs : List RawRecord) :
    (mkBuffer rs).length = 15 + (mkEntryData rs).length := by
  simp [mkBuffer, HEADER, encodeLE_length]
  omega

theorem length_le_mkEntryData (rs : List RawRecord) :
    rs.length ≤ (mkEntryData rs).length := by
  induction rs with
  | nil => simp [mkEntryData_nil]
  | cons r rest ih =>
    rw [mkEntryData_cons, List.length_cons, List.length_append,
      encodeRawRecord_length]
    omega

/-- Decoding a well-formed container buffer succeeds and produces exactly
the records' decoded entries, inserted in order via `Map.set`. -/
theorem deserializeFileMap_mkBuffer (rs : List RawRecord)
    (hwf : ∀ r ∈ rs, rawOk r)
    (hlen : 15 + (mkEntryData rs).length < 2147483648) :
    deserializeFileMap (mkBuffer rs) =
      .ok (rs.foldl
        (fun m r => mapSet m (decodeRawRecord r).1 (decodeRawRecord r).2)
        []) := by
  have hbuflen := mkBuffer_length rs
  have hcount := length_le_mkEntryData rs
  have hHM : headerMatches (mkBuffer rs) = true := by
    rw [show mkBuffer rs = HEADER ++ (encodeLE (15 + (mkEntryData rs).length) 4 ++
      (encodeLE rs.length 4 ++ mkEntryData rs)) by
        simp [mkBuffer, List.append_assoc]]
    exact headerMatches_header_append _
  have hTL : jsSlice (mkBuffer rs) 7 11 =
      encodeLE (15 + (mkEntryData rs).length) 4 :=
    jsSlice_at _ HEADER _ (encodeLE rs.length 4 ++ mkEntryData rs) _ _
      (by simp [mkBuffer, List.append_assoc])
      (by norm_num [HEADER])
      (by norm_num [HEADER, encodeLE_length])
  have hEC : jsSlice (mkBuffer rs) 11 15 = encodeLE rs.length 4 :=
    jsSlice_at _ (HEADER ++ encodeLE (15 + (mkEntryData rs).length) 4) _
      (mkEntryData rs) _ _
      (by simp [mkBuffer, List.append_assoc])
      (by norm_num [HEADER, encodeLE_length])
      (by norm_num [HEADER, encodeLE_length])
  simp only [deserializeFileMap]
  rw [if_neg (not_not_intro hHM)]
  rw [if_neg (by omega)]
  rw [hTL, decodeLE_encodeLE_four_of_lt _ (by omega)]
  rw [if_neg (by push_cast [hbuflen]; omega)]
  rw [if_neg (by omega)]
  rw [hEC, decodeLE_encodeLE_four_of_lt _ (by omega), Int.toNat_natCast]
  rw [show (15 : Int) = (((HEADER ++ encodeLE (15 + (mkEntryData rs).length) 4 ++
      encodeLE rs.length 4).length : Nat) : Int) by
    norm_num [HEADER, encodeLE_length]]
  rw [show mkBuffer rs = (HEADER ++ encodeLE (15 + (mkEntryData rs).length) 4 ++
      encodeLE rs.length 4) ++ mkEntryData rs by
    simp [mkBuffer, List.append_assoc]]
  exact parseEntries_spec rs _ [] hwf

/-! ## Serializer structure -/

theorem encodeRecord_eq_raw (e : BuiltEntry) :
    encodeRecord e = encodeRawRecord (toRaw e) := rfl

theorem contentRawLength_le (c : JsContent) :
    contentRawLength c ≤ (contentBytes c).length := by
  cases c with
  | str s => exact utf16Length_le_encodeLength s
  | bytes b => exact Nat.le_refl _

/-- The first loop succeeds and builds the entries in order whenever every
path fits in 16 bits of UTF-16 units and the content byte total fits the
4-byte limit. -/
theorem buildEntries_ok (l : List (List Char × JsContent))
    (acc : List BuiltEntry)
    (hpath : ∀ e ∈ l, utf16Length e.1 ≤ 65535)
    (hsum : (acc.map (fun e => e.content.length)).sum +
        (l.map (fun e => (contentBytes e.2).length)).sum ≤ 4294967295) :
    buildEntries l acc = .ok (acc ++ l.map mkBuilt) := by
  induction l generalizing acc with
  | nil => simp [buildEntries]
  | cons e rest ih =>
    obtain ⟨p, c⟩ := e
    have hraw := contentRawLength_le c
    have hh := hpath (p, c) (by simp)
    simp only [List.map_cons, List.sum_cons] at hsum
    rw [buildEntries]
    rw [if_neg (by simp at hh ⊢; omega)]
    rw [if_neg (by simp; omega)]
    rw [ih _ (fun q hq => hpath q (by simp [hq])) (by simp; omega)]
    simp [mkBuilt]

/-- A successful serialization is exactly the container buffer of the built
entries' records. -/
theorem serializeFileMap_eq (m : List (List Char × JsContent))
    (es : List BuiltEntry) (h : buildEntries m [] = .ok es) :
    serializeFileMap m = .ok (mkBuffer (es.map toRaw)) := by
  rw [serializeFileMap, h]
  simp only [Except.map]
  rw [mkBuffer, mkEntryData, List.map_map]
  have hfun : encodeRawRecord ∘ toRaw = encodeRecord := rfl
  rw [hfun, List.length_map, show HEADER.length + 4 + 4 = 15 from rfl]

theorem mkEntryData_length (rs : List RawRecord) :
    (mkEntryData rs).length =
      (rs.map (fun r => 7 + r.pathBytes.length + r.content.length)).sum := by
  induction rs with
  | nil => rfl
  | cons r rest ih =>
    rw [mkEntryData_cons, List.length_append, encodeRawRecord_length, ih,
      List.map_cons, List.sum_cons]

theorem decodeRawRecord_toRaw (e : List Char × JsContent) :
    decodeRawRecord (toRaw (mkBuilt e)) = e := by
  obtain ⟨p, c⟩ := e
  cases c <;>
    simp [decodeRawRecord, toRaw, mkBuilt, JsContent.isBin, contentBytes,
      utf8Decode_encode]

/-! ## Map-building lemmas -/

theorem mapSet_append_of_not_mem (m : List (List Char × JsContent))
    (k : List Char) (v : JsContent) (h : k ∉ m.map Prod.fst) :
    mapSet m k v = m ++ [(k, v)] := by
  induction m with
  | nil => rfl
  | cons e rest ih =>
    simp only [List.map_cons, List.mem_cons] at h
    push_neg at h
    rw [mapSet, if_neg (by exact fun hk => h.1 hk.symm), ih h.2,
      List.cons_append]

theorem foldl_mapSet_nodup (l : List (List Char × JsContent))
    (acc : List (List Char × JsContent))
    (h1 : (l.map Prod.fst).Nodup)
    (h2 : ∀ k ∈ l.map Prod.fst, k ∉ acc.map Prod.fst) :
    l.foldl (fun m e => mapSet m e.1 e.2) acc = acc ++ l := by
  induction l generalizing acc with
  | nil => simp
  | cons e rest ih =>
    rw [List.foldl_cons, mapSet_append_of_not_mem _ _ _
      (h2 e.1 (by rw [List.map_cons]; exact List.mem_cons_self _ _))]
    rw [List.map_cons, List.nodup_cons] at h1
    have hnotin : ∀ k ∈ rest.map Prod.fst,
        k ∉ (acc ++ [(e.1, e.2)]).map Prod.fst := by
      intro k hk hmem
      rw [List.map_append, List.mem_append] at hmem
      rcases hmem with hmem | hmem
      · exact h2 k (by rw [List.map_cons]; exact List.mem_cons_of_mem _ hk)
          hmem
      · simp only [List.map_cons, List.map_nil, List.mem_singleton] at hmem
        exact h1.1 (hmem ▸ hk)
    rw [ih _ h1.2 hnotin]
    simp

/-! ## Decode-failure helpers -/

theorem deserializeFileMap_invalid_header (data : List Nat)
    (h : headerMatches data = false) :
    deserializeFileMap data = .error .INVALID_HEADER := by
  simp only [deserializeFileMap]
  rw [if_pos (by simp [h])]

theorem deserializeFileMap_corrupted (data : List Nat)
    (hHM : headerMatches data = true) (hlen : 11 ≤ data.length)
    (hne : decodeLE (jsSlice data 7 11) ≠ (data.length : Int)) :
    deserializeFileMap data = .error .CORRUPTED_DATA := by
  simp only [deserializeFileMap]
  rw [if_neg (not_not_intro hHM), if_neg (by omega), if_pos hne]

theorem headerMatches_mkBuffer (rs : List RawRecord) :
    headerMatches (mkBuffer rs) = true := by
  rw [show mkBuffer rs = HEADER ++
    (encodeLE (15 + (mkEntryData rs).length) 4 ++
      (encodeLE rs.length 4 ++ mkEntryData rs)) by
    simp [mkBuffer, List.append_assoc]]
  exact headerMatches_header_append _

theorem mkBuffer_slice_7_11 (rs : List RawRecord) :
    jsSlice (mkBuffer rs) 7 11 =
      encodeLE (15 + (mkEntryData rs).length) 4 :=
  jsSlice_at _ HEADER _ (encodeLE rs.length 4 ++ mkEntryData rs) _ _
    (by simp [mkBuffer, List.append_assoc])
    (by norm_num [HEADER])
    (by norm_num [HEADER, encodeLE_length])

theorem jsSlice_take (data : List Nat) (k : Nat) (a b : Int)
    (ha : 0 ≤ a) (hb : 0 ≤ b) (h : b ≤ (k : Int)) :
    jsSlice (data.take k) a b = jsSlice data a b := by
  lift a to Nat using ha
  lift b to Nat using hb
  rw [jsSlice_coe, jsSlice_coe, List.take_take,
    min_eq_left (by exact_mod_cast h)]

/-! ## Claim theorems -/

/-- Claim C4: serializing an empty collection yields exactly the 15-byte
buffer `magic header ++ totalLength(=15, little-endian) ++ entryCount(=0,
little-endian)` with no entry records, and deserializing that buffer yields
an empty collection. -/
theorem claim_C4_empty :
    serializeFileMap [] = .ok (HEADER ++ encodeLE 15 4 ++ encodeLE 0 4) ∧
    (HEADER ++ encodeLE 15 4 ++ encodeLE 0 4).length = 15 ∧
    HEADER.length = 7 ∧
    deserializeFileMap (HEADER ++ encodeLE 15 4 ++ encodeLE 0 4) =
      .ok [] := by decide

/-- Claim C5: any mismatch between the first 7 bytes of the input and the
fixed magic header — including a byte changed to a different value and a
buffer shorter than 7 bytes, where the read yields `undefined` — makes
`deserializeFileMap` fail with `INVALID_HEADER`. -/
theorem claim_C5_header (data : List Nat) (i : Nat) (hi : i < 7)
    (hne : jsGet data i ≠ HEADER[i]?) :
    deserializeFileMap data = .error .INVALID_HEADER := by
  apply deserializeFileMap_invalid_header
  cases hCase : headerMatches data with
  | false => rfl
  | true =>
    exfalso
    apply hne
    have hall := List.all_eq_true.mp hCase i
      (List.mem_range.mpr (by rw [show HEADER.length = 7 from rfl]; omega))
    exact eq_of_beq hall

/-- Witness for claim C5 at the empty buffer: the first read is
`undefined`, which mismatches the header byte. -/
theorem claim_C5_header_witness :
    deserializeFileMap [] = .error .INVALID_HEADER :=
  claim_C5_header [] 0 (by decide) (by decide)

/-- Claim C8: during `unzip`, a failure of the gzip decompression step that
is already a `SqurpError` passes through to the caller unchanged, and any
other failure is surfaced as a `SqurpError` with code `CORRUPTED_DATA`. -/
theorem claim_C8_gzip_errors (e : JsError) :
    unzip (.error e) = .error (match e with
      | .squrp c => JsError.squrp c
      | .other _ => JsError.squrp .CORRUPTED_DATA) := by
  cases e <;> rfl

/-- Claim C1 (amended): for an ordered map with pairwise-distinct paths,
every path's UTF-8 encoding at most 65535 bytes, and a total serialized
size (15 header bytes plus 7 + pathBytes + contentBytes per entry) of at
most 2^31 - 1 bytes, deserializing the serialization reproduces the same
entries — paths, content bytes and text/binary classification — in the same
order. -/
theorem claim_C1_roundtrip (m : List (List Char × JsContent))
    (hkeys : (m.map Prod.fst).Nodup)
    (hpath : ∀ e ∈ m, (utf8Encode e.1).length ≤ 65535)
    (hsize : 15 + (m.map (fun e =>
        7 + (utf8Encode e.1).length + (contentBytes e.2).length)).sum ≤
        2147483647) :
    (serializeFileMap m).bind deserializeFileMap = .ok m := by
  have hsum0 : (m.map (fun e => (contentBytes e.2).length)).sum ≤
      (m.map (fun e =>
        7 + (utf8Encode e.1).length + (contentBytes e.2).length)).sum :=
    List.sum_le_sum (fun e _ => by omega)
  have hbuild := buildEntries_ok m []
    (fun e he => le_trans (utf16Length_le_encodeLength e.1) (hpath e he))
    (by simp only [List.map_nil, List.sum_nil, Nat.zero_add]; omega)
  rw [List.nil_append] at hbuild
  rw [serializeFileMap_eq m _ hbuild]
  have hedl : (mkEntryData ((m.map mkBuilt).map toRaw)).length =
      (m.map (fun e =>
        7 + (utf8Encode e.1).length + (contentBytes e.2).length)).sum := by
    rw [mkEntryData_length, List.map_map, List.map_map]
    rfl
  have hwf : ∀ r ∈ (m.map mkBuilt).map toRaw, rawOk r := by
    intro r hr
    rw [List.map_map] at hr
    obtain ⟨e, he, heq⟩ := List.mem_map.mp hr
    have hmem : (7 + (utf8Encode e.1).length + (contentBytes e.2).length) ∈
        m.map (fun e =>
          7 + (utf8Encode e.1).length + (contentBytes e.2).length) :=
      List.mem_map_of_mem _ he
    have hle := List.single_le_sum (fun x _ => Nat.zero_le x) _ hmem
    have hpe := hpath e he
    subst heq
    constructor
    · show (utf8Encode e.1).length < 65536
      omega
    · show (contentBytes e.2).length < 2147483648
      omega
  rw [except_bind_ok]
  rw [deserializeFileMap_mkBuffer _ hwf (by omega)]
  rw [List.map_map, List.foldl_map]
  rw [show (fun (mm : List (List Char × JsContent)) e =>
      mapSet mm (decodeRawRecord ((toRaw ∘ mkBuilt) e)).1
        (decodeRawRecord ((toRaw ∘ mkBuilt) e)).2) =
      (fun mm e => mapSet mm e.1 e.2) from funext fun mm => funext fun e => by
    rw [show (toRaw ∘ mkBuilt) e = toRaw (mkBuilt e) from rfl,
      decodeRawRecord_toRaw]]
  rw [foldl_mapSet_nodup m [] hkeys
    (fun k _ => by rw [List.map_nil]; exact List.not_mem_nil k)]
  rw [List.nil_append]

/-- Witness for claim C1 on a small mixed text/binary map. -/
theorem claim_C1_roundtrip_witness :
    (serializeFileMap [(['a'], JsContent.str ['h']),
        (['b'], JsContent.bytes [0, 255])]).bind deserializeFileMap =
      .ok [(['a'], JsContent.str ['h']), (['b'], JsContent.bytes [0, 255])] :=
  claim_C1_roundtrip _ (by decide) (by decide) (by decide)

/-- Any single-entry map whose binary content is 2^31 bytes long
serializes successfully but fails to deserialize: the 2^31 + 23 byte total
length reads back negative through the 32-bit signed `decodeLE`. -/
theorem roundtrip_fails_of_length (X : List Nat)
    (hl : X.length = 2147483648) :
    (serializeFileMap [(['a'], JsContent.bytes X)]).bind deserializeFileMap =
      .error .CORRUPTED_DATA := by
  have hbuild := buildEntries_ok [(['a'], JsContent.bytes X)] []
    (by intro e he
        rw [List.mem_singleton] at he
        subst he
        show utf16Length ['a'] ≤ 65535
        decide)
    (by rw [List.map_nil, List.sum_nil, List.map_cons, List.map_nil,
          List.sum_cons, List.sum_nil]
        show 0 + (X.length + 0) ≤ 4294967295
        rw [hl]
        norm_num)
  rw [List.nil_append] at hbuild
  rw [serializeFileMap_eq _ _ hbuild, except_bind_ok]
  have hedl : (mkEntryData ((
      [(['a'], JsContent.bytes X)].map mkBuilt).map toRaw)).length =
      2147483656 := by
    rw [mkEntryData_length, List.map_map, List.map_map, List.map_cons,
      List.map_nil, List.sum_cons, List.sum_nil]
    show 7 + (utf8Encode ['a']).length + X.length + 0 = 2147483656
    rw [hl, show (utf8Encode ['a']).length = 1 from by decide]
  apply deserializeFileMap_corrupted
  · exact headerMatches_mkBuffer _
  · rw [mkBuffer_length, hedl]
    norm_num
  · rw [mkBuffer_slice_7_11, mkBuffer_length, hedl, decodeLE_encodeLE_four]
    decide

/-- Claim C1 (counterexample): a single binary entry of 2^31 zero bytes
satisfies the claim's stated bounds — the path is 1 UTF-8 byte and the
content total 2147483648 is at most 2^32 - 1 — yet the round-trip fails
with `CORRUPTED_DATA` instead of reproducing the map. -/
theorem claim_C1_counterexample :
    ((utf8Encode ['a']).length ≤ 65535 ∧
      (List.replicate 2147483648 (0 : Nat)).length ≤ 4294967295) ∧
    (serializeFileMap
        [(['a'], JsContent.bytes (List.replicate 2147483648 0))]).bind
      deserializeFileMap = .error .CORRUPTED_DATA :=
  ⟨⟨by decide, by rw [List.length_replicate]; norm_num⟩,
    roundtrip_fails_of_length _ (List.length_replicate _ _)⟩

/-- `serializeFileMap` succeeds on a single text entry with an empty
content whenever the path's UTF-16 length passes the source's check,
regardless of the path's UTF-8 byte length. -/
theorem serialize_succeeds_long_path (s : List Char)
    (h : utf16Length s ≤ 65535) :
    (serializeFileMap [(s, JsContent.str [])]).toOption.isSome = true := by
  have hbuild : buildEntries [(s, JsContent.str [])] [] =
      .ok [⟨s, false, utf8Encode []⟩] := by
    rw [buildEntries.eq_def]
    simp only
    rw [if_neg (by omega)]
    rw [if_neg (by decide)]
    rw [buildEntries.eq_def]
    simp only
    rw [List.nil_append]
    rfl
  rw [serializeFileMap_eq _ _ hbuild]
  rfl

/-- `serializeFileMap` succeeds on a single text entry under path "a"
whenever the content's UTF-16 length passes the source's size check,
regardless of the content's UTF-8 byte length. -/
theorem serialize_succeeds_of_utf16 (s : List Char)
    (h : utf16Length s ≤ 4294967295) :
    (serializeFileMap [(['a'], JsContent.str s)]).toOption.isSome = true := by
  have hbuild : buildEntries [(['a'], JsContent.str s)] [] =
      .ok [⟨['a'], false, utf8Encode s⟩] := by
    rw [buildEntries.eq_def]
    simp only
    rw [if_neg (by decide)]
    rw [if_neg (by
      show ¬ ((List.map (fun e => e.content.length)
        ([] : List BuiltEntry)).sum +
        contentRawLength (JsContent.str s) > 4294967295)
      show ¬ ((List.map (fun e => e.content.length)
        ([] : List BuiltEntry)).sum + utf16Length s > 4294967295)
      rw [List.map_nil, List.sum_nil]
      omega)]
    rw [buildEntries.eq_def]
    simp only
    rw [List.nil_append]
    rfl
  rw [serializeFileMap_eq _ _ hbuild]
  rfl

theorem utf16Length_replicate_u0800 (n : Nat) :
    utf16Length (List.replicate n (Char.ofNat 2048)) = n := by
  rw [utf16Length, List.map_replicate,
    show utf16Units (Char.ofNat 2048) = 1 from by decide,
    List.sum_replicate, smul_eq_mul, Nat.mul_one]

theorem utf8Length_replicate_u0800 (n : Nat) :
    (utf8Encode (List.replicate n (Char.ofNat 2048))).length = 3 * n := by
  rw [utf8Encode, List.map_replicate, List.length_flatten,
    List.map_replicate,
    show (utf8EncodeChar (Char.ofNat 2048)).length = 3 from by decide,
    List.sum_replicate, smul_eq_mul, Nat.mul_comm]

/-- Claim C2 (the code at the failing input): a path of 22000 copies of
U+0800 has a 66000-byte UTF-8 encoding — 65536 bytes or more, where the
claim requires `PATH_TOO_LONG` — yet `serializeFileMap` succeeds, because
the source checks the UTF-16 code-unit count `path.length` (22000 here)
instead of the UTF-8 byte length its own documentation and 2-byte
`pathLength` field call for. -/
theorem claim_C2_code_bug :
    65536 ≤ (utf8Encode (List.replicate 22000 (Char.ofNat 2048))).length ∧
    (serializeFileMap [(List.replicate 22000 (Char.ofNat 2048),
      JsContent.str [])]).toOption.isSome = true := by
  constructor
  · rw [utf8Length_replicate_u0800]
    norm_num
  · exact serialize_succeeds_long_path _
      (by rw [utf16Length_replicate_u0800]; norm_num)

/-- Claim C6 (the code at the failing input): a text content of 2^31
copies of U+0800 has 6442450944 content bytes — far above the 2^32 - 1
limit at which the claim requires `CONTENT_TOO_LARGE` — yet
`serializeFileMap` succeeds, because the size check counts the current
entry's `content.length` in UTF-16 code units (2147483648 here) rather
than encoded bytes. -/
theorem claim_C6_code_bug :
    4294967295 < (contentBytes (JsContent.str
      (List.replicate 2147483648 (Char.ofNat 2048)))).length ∧
    (serializeFileMap [(['a'], JsContent.str
      (List.replicate 2147483648 (Char.ofNat 2048)))]).toOption.isSome =
      true := by
  constructor
  · show 4294967295 <
      (utf8Encode (List.replicate 2147483648 (Char.ofNat 2048))).length
    rw [utf8Length_replicate_u0800]
    norm_num
  · exact serialize_succeeds_of_utf16 _
      (by rw [utf16Length_replicate_u0800]; norm_num)

/-- Claim C3 (counterexample): truncating the valid 15-byte buffer of the
empty map down to 6 bytes removes a nonzero number of trailing bytes, but
deserialization fails with `INVALID_HEADER` — not one of `UNEXPECTED_END`,
`ENTRY_EXCEEDS_BOUNDS`, `CORRUPTED_DATA` — because the truncation cut into
the 7-byte magic header itself. -/
theorem claim_C3_counterexample :
    serializeFileMap [] = .ok (HEADER ++ encodeLE 15 4 ++ encodeLE 0 4) ∧
    deserializeFileMap ((HEADER ++ encodeLE 15 4 ++ encodeLE 0 4).take 6) =
      .error .INVALID_HEADER := by decide

/-- Claim C3 (amended): truncating a valid serialized buffer of total
length below 2^31 (so that its `totalLength` field reads back faithfully)
by a nonzero number of trailing bytes, while keeping at least the 7 header
bytes, makes `deserializeFileMap` fail with `UNEXPECTED_END`,
`CORRUPTED_DATA` or `ENTRY_EXCEEDS_BOUNDS`; it never returns a result. -/
theorem claim_C3_truncation (m : List (List Char × JsContent))
    (buf : List Nat) (k : Nat)
    (hser : serializeFileMap m = .ok buf)
    (hsmall : buf.length ≤ 2147483647)
    (h7 : 7 ≤ k) (hk : k < buf.length) :
    deserializeFileMap (buf.take k) = .error .UNEXPECTED_END ∨
    deserializeFileMap (buf.take k) = .error .CORRUPTED_DATA ∨
    deserializeFileMap (buf.take k) = .error .ENTRY_EXCEEDS_BOUNDS := by
  obtain ⟨rs, hbuf⟩ : ∃ rs, buf = mkBuffer rs := by
    cases hb : buildEntries m [] with
    | error e =>
      simp only [serializeFileMap] at hser
      rw [hb] at hser
      exact absurd hser (by simp [Except.map])
    | ok es =>
      have h2 := (serializeFileMap_eq m es hb).symm.trans hser
      refine ⟨es.map toRaw, ?_⟩
      injection h2 with h3
      exact h3.symm
  subst hbuf
  have hbl := mkBuffer_length rs
  have hHM : headerMatches ((mkBuffer rs).take k) = true := by
    rw [show mkBuffer rs = HEADER ++
      (encodeLE (15 + (mkEntryData rs).length) 4 ++
        (encodeLE rs.length 4 ++ mkEntryData rs)) by
      simp [mkBuffer, List.append_assoc]]
    rw [List.take_append_eq_append_take, List.take_of_length_le
      (by rw [show HEADER.length = 7 from rfl]; omega)]
    exact headerMatches_header_append _
  have hlen_take : ((mkBuffer rs).take k).length = k := by
    rw [List.length_take]
    omega
  rcases Nat.lt_or_ge k 11 with hk11 | hk11
  · left
    simp only [deserializeFileMap]
    rw [if_neg (not_not_intro hHM), if_pos (by rw [hlen_take]; omega)]
  · right; left
    apply deserializeFileMap_corrupted _ hHM (by rw [hlen_take]; omega)
    rw [jsSlice_take _ _ _ _ (by norm_num) (by norm_num)
      (by exact_mod_cast hk11)]
    rw [mkBuffer_slice_7_11, decodeLE_encodeLE_four_of_lt _ (by omega),
      hlen_take]
    omega

/-- Witness for claim C3 on the empty-map buffer truncated to 12 bytes. -/
theorem claim_C3_truncation_witness :
    deserializeFileMap ((HEADER ++ encodeLE 15 4 ++ encodeLE 0 4).take 12) =
      .error .UNEXPECTED_END ∨
    deserializeFileMap ((HEADER ++ encodeLE 15 4 ++ encodeLE 0 4).take 12) =
      .error .CORRUPTED_DATA ∨
    deserializeFileMap ((HEADER ++ encodeLE 15 4 ++ encodeLE 0 4).take 12) =
      .error .ENTRY_EXCEEDS_BOUNDS :=
  claim_C3_truncation [] (HEADER ++ encodeLE 15 4 ++ encodeLE 0 4) 12
    (by decide) (by decide) (by decide) (by decide)

theorem mapGet_mapSet_self (m : List (List Char × JsContent))
    (k : List Char) (v : JsContent) : mapGet (mapSet m k v) k = some v := by
  induction m with
  | nil => simp [mapSet, mapGet]
  | cons e rest ih =>
    obtain ⟨k0, v0⟩ := e
    by_cases h : k0 = k <;> simp [mapSet, mapGet, h, ih]

theorem mapGet_mapSet_ne (m : List (List Char × JsContent))
    (k0 k : List Char) (v : JsContent) (h : k0 ≠ k) :
    mapGet (mapSet m k0 v) k = mapGet m k := by
  induction m with
  | nil => simp [mapSet, mapGet, h]
  | cons e rest ih =>
    obtain ⟨k1, v1⟩ := e
    rw [mapSet]
    by_cases h1 : k1 = k0
    · rw [if_pos h1]
      subst h1
      rw [mapGet, mapGet, if_neg h, if_neg h]
    · rw [if_neg h1, mapGet, mapGet]
      by_cases h2 : k1 = k
      · rw [if_pos h2, if_pos h2]
      · rw [if_neg h2, if_neg h2, ih]

/-- Looking a path up in the decoded map finds the value of the last
record whose decoded path matches, and falls back to the accumulator. -/
theorem mapGet_foldl (rs : List RawRecord)
    (acc : List (List Char × JsContent)) (p : List Char) :
    mapGet (rs.foldl (fun m r =>
      mapSet m (decodeRawRecord r).1 (decodeRawRecord r).2) acc) p =
      (match rs.reverse.find?
          (fun r => decide ((decodeRawRecord r).1 = p)) with
       | some r => some (decodeRawRecord r).2
       | none => mapGet acc p) := by
  induction rs using List.reverseRecOn with
  | nil => simp
  | append_singleton l x ih =>
    rw [List.foldl_append, List.foldl_cons, List.foldl_nil,
      List.reverse_append, List.reverse_singleton, List.singleton_append]
    by_cases hx : (decodeRawRecord x).1 = p
    · rw [List.find?_cons_of_pos _ (by simpa using hx), hx,
        mapGet_mapSet_self]
    · rw [List.find?_cons_of_neg _ (by simpa using hx),
        mapGet_mapSet_ne _ _ _ _ hx, ih]

/-- Claim C7: a well-formed container buffer may carry several records
with the same decoded path; `deserializeFileMap` accepts it, and the
resulting map binds that path to the content of the last record carrying
it (`Map.set` last-write-wins). -/
theorem claim_C7_duplicates (rs : List RawRecord) (p : List Char)
    (r : RawRecord)
    (hwf : ∀ q ∈ rs, rawOk q)
    (hlen : 15 + (mkEntryData rs).length < 2147483648)
    (hfind : rs.reverse.find?
      (fun q => decide ((decodeRawRecord q).1 = p)) = some r) :
    ∃ out, deserializeFileMap (mkBuffer rs) = .ok out ∧
      mapGet out p = some (decodeRawRecord r).2 := by
  refine ⟨_, deserializeFileMap_mkBuffer rs hwf hlen, ?_⟩
  rw [mapGet_foldl, hfind]

/-- Witness for claim C7: two records with path "a", text then binary; the
lookup returns the second (binary) record's content. -/
theorem claim_C7_duplicates_witness :
    ∃ out, deserializeFileMap (mkBuffer
        [⟨[97], 0, [104]⟩, ⟨[97], 1, [5]⟩]) = .ok out ∧
      mapGet out ['a'] = some (decodeRawRecord ⟨[97], 1, [5]⟩).2 :=
  claim_C7_duplicates _ ['a'] _ (by decide) (by decide) (by decide)

/-- Claim C9: in a well-formed single-record buffer, the decoder produces
a binary entry exactly when the flag byte equals 1; every other flag value
(0, or 2 through 255, or any other value) produces a text entry whose
content bytes are UTF-8-decoded. -/
theorem claim_C9_flag (pb cb : List Nat) (f : Nat)
    (hp : pb.length < 65536) (hc : cb.length < 2147483648)
    (hlen : 15 + (7 + pb.length + cb.length) < 2147483648) :
    deserializeFileMap (mkBuffer [⟨pb, f, cb⟩]) =
      .ok [(utf8Decode pb,
        if f = 1 then JsContent.bytes cb
        else JsContent.str (utf8Decode cb))] := by
  rw [deserializeFileMap_mkBuffer [⟨pb, f, cb⟩]
    (by intro q hq
        rw [List.mem_singleton] at hq
        subst hq
        exact ⟨hp, hc⟩)
    (by rw [mkEntryData_length, List.map_cons, List.map_nil, List.sum_cons,
          List.sum_nil]
        show 15 + (7 + pb.length + cb.length + 0) < 2147483648
        omega)]
  rw [List.foldl_cons, List.foldl_nil]
  by_cases hf : f = 1 <;> simp [decodeRawRecord, mapSet, hf]

/-- Witness for claim C9 at flag byte 2: the entry decodes as text. -/
theorem claim_C9_flag_witness :
    deserializeFileMap (mkBuffer [⟨[97], 2, [104, 105]⟩]) =
      .ok [(utf8Decode [97],
        if (2 : Nat) = 1 then JsContent.bytes [104, 105]
        else JsContent.str (utf8Decode [104, 105]))] :=
  claim_C9_flag [97] [104, 105] 2 (by decide) (by decide) (by decide)

/-- Claim C10 (amended): for a buffer with a valid magic header whose
length is at least 2^31 and whose `totalLength` field encodes the actual
length, `deserializeFileMap` fails with `CORRUPTED_DATA` instead of
accepting it, because `decodeLE` assembles the 4-byte field with 32-bit
signed arithmetic; when the length is below 2^32, the field in fact reads
back negative. -/
theorem claim_C10_signed_length (data : List Nat)
    (hHM : headerMatches data = true)
    (hbig : 2147483648 ≤ data.length)
    (hfield : jsSlice data 7 11 = encodeLE data.length 4) :
    deserializeFileMap data = .error .CORRUPTED_DATA ∧
      (data.length < 4294967296 → decodeLE (jsSlice data 7 11) < 0) := by
  constructor
  · apply deserializeFileMap_corrupted data hHM (by omega)
    rw [hfield, decodeLE_encodeLE_four]
    have h32 := toInt32_lt (data.length : Int)
    omega
  · intro hlt
    rw [hfield, decodeLE_encodeLE_four]
    simp only [toInt32]
    split_ifs with h <;> omega

/-- Witness for claim C10 at a buffer of exactly 2^31 bytes: valid header,
faithful `totalLength` field, decode fails with `CORRUPTED_DATA` and the
field reads back negative. -/
theorem claim_C10_signed_length_witness :
    deserializeFileMap (HEADER ++ encodeLE 2147483648 4 ++
        List.replicate 2147483637 0) = .error .CORRUPTED_DATA ∧
      ((HEADER ++ encodeLE 2147483648 4 ++
          List.replicate 2147483637 0).length < 4294967296 →
        decodeLE (jsSlice (HEADER ++ encodeLE 2147483648 4 ++
          List.replicate 2147483637 0) 7 11) < 0) := by
  have hL : (HEADER ++ encodeLE 2147483648 4 ++
      List.replicate 2147483637 (0 : Nat)).length = 2147483648 := by
    rw [List.length_append, List.length_append, encodeLE_length,
      List.length_replicate, show HEADER.length = 7 from rfl]
  exact claim_C10_signed_length _
    (by rw [List.append_assoc]; exact headerMatches_header_append _)
    (by rw [hL])
    (by rw [hL]
        exact jsSlice_at _ HEADER _ (List.replicate 2147483637 0) _ _ rfl
          (by norm_num [HEADER])
          (by rw [encodeLE_length, show HEADER.length = 7 from rfl]
              norm_num))

/-- Claim C10 (counterexample): a buffer of 2^31 bytes whose `totalLength`
field correctly encodes its length but whose first 7 bytes are zero fails
with `INVALID_HEADER`, not `CORRUPTED_DATA`: the claim as stated omits the
magic-header precondition. -/
theorem claim_C10_counterexample :
    (2147483648 ≤ ([0, 0, 0, 0, 0, 0, 0] ++ encodeLE 2147483648 4 ++
        List.replicate 2147483637 (0 : Nat)).length ∧
      jsSlice ([0, 0, 0, 0, 0, 0, 0] ++ encodeLE 2147483648 4 ++
          List.replicate 2147483637 (0 : Nat)) 7 11 =
        encodeLE ([0, 0, 0, 0, 0, 0, 0] ++ encodeLE 2147483648 4 ++
          List.replicate 2147483637 (0 : Nat)).length 4) ∧
    deserializeFileMap ([0, 0, 0, 0, 0, 0, 0] ++ encodeLE 2147483648 4 ++
        List.replicate 2147483637 (0 : Nat)) = .error .INVALID_HEADER := by
  have hL : ([0, 0, 0, 0, 0, 0, 0] ++ encodeLE 2147483648 4 ++
      List.replicate 2147483637 (0 : Nat)).length = 2147483648 := by
    rw [List.length_append, List.length_append, encodeLE_length,
      List.length_replicate]
    simp only [List.length_cons, List.length_nil]
  refine ⟨⟨by rw [hL], ?_⟩, ?_⟩
  · rw [hL]
    exact jsSlice_at _ [0, 0, 0, 0, 0, 0, 0] _
      (List.replicate 2147483637 0) _ _ rfl (by norm_num)
      (by rw [encodeLE_length]; norm_num)
  · apply deserializeFileMap_invalid_header
    have h0 : jsGet ([0, 0, 0, 0, 0, 0, 0] ++ encodeLE 2147483648 4 ++
        List.replicate 2147483637 (0 : Nat)) (((0 : Nat) : Int)) = some 0 :=
      jsGet_at _ [] (([0, 0, 0, 0, 0, 0] ++ encodeLE 2147483648 4) ++
        List.replicate 2147483637 (0 : Nat)) 0 _
        (by simp only [List.cons_append, List.nil_append]) rfl
    rw [headerMatches]
    apply List.all_eq_false.mpr
    refine ⟨0, by decide, ?_⟩
    rw [h0]
    decide

end Squrp
